import Mathlib

/-!
Verification of the SRTM elevation resolver (`src/GetElevations.py`, with its
collaborators `src/LoadGeo.py` and `Orchestrator.py`).

The embedding below follows `GetElevations` line by line:

* `_process_directory` is `processDirectory`.  The spatial join
  `gpd.sjoin(coords, srtm_reference, how="left", predicate="within")` followed
  by `reset_index` is `sjoinLeft` (each point yields one row per matching SRTM
  grid polygon, or a single row whose `id` column is `NaN`, encoded `none`).
  The `groupby("id")` loop runs over the distinct non-null ids in ascending
  order (`sortIds`); each group either records a missing-raster warning
  (`os.path.exists` false) or samples the whole coordinate batch once and
  scatters the values back to the rows' original indices (`scatter`, the
  `elevations[orig_idx] = val` loop over `zip(subset["original_index"], vals)`).
* `_process_single_raster` is `processSingleRaster`.
* `value_from_src` is the per-coordinate sampling primitive.

The file-system and raster contents are the explicit environment `Env`
(whether the raster for a tile id is on disk, and the value the raster yields
for a coordinate).  Diagnostics (the two `print` warnings) and the sampler
invocations are recorded in the result so that claims about them are statable.
-/

set_option linter.unusedVariables false

namespace Srtm

/-- A geographic point: the (longitude, latitude) pair carried by one row of
the `coords` GeoDataFrame (`geom.x`, `geom.y`), with coordinates read at fixed
precision as integers. -/
structure Point where
  x : Int
  y : Int
deriving DecidableEq

/-- One SRTM grid polygon of the `srtm_reference` GeoDataFrame: a rectangular
extent plus the value of its `id` column (the id also names the raster file
`<id>.gpkg`). -/
structure Tile where
  id : Nat
  xmin : Int
  ymin : Int
  xmax : Int
  ymax : Int
deriving DecidableEq

/-- The spatial predicate `within` used by
`gpd.sjoin(..., predicate="within")`: the point lies in the tile's extent. -/
def within (p : Point) (t : Tile) : Bool :=
  t.xmin ≤ p.x && p.x ≤ t.xmax && t.ymin ≤ p.y && p.y ≤ t.ymax

/-- All tiles of the index whose extent contains `p`, in index order. -/
def tileMatches (tiles : List Tile) (p : Point) : List Tile :=
  tiles.filter (fun t => within p t)

/-- The id the join assigns to `p` when `p` matches at most one tile: the id
of the first matching tile, or `none` (the `NaN` produced by `how="left"`)
when no tile contains `p`. -/
def aId (tiles : List Tile) (p : Point) : Option Nat :=
  (tileMatches tiles p).head?.map Tile.id

/-- One row of the joined GeoDataFrame after `reset_index`: the
`original_index` column, the point geometry, and the `id` column (`none`
encodes `NaN`). -/
abbrev Row : Type := Nat × Point × Option Nat

/-- Rows of `gpd.sjoin(coords, srtm_reference, how="left", predicate="within")`
followed by `reset_index` (which materialises each point's original position):
each point yields one row per matching tile, or a single `none`-id row when no
tile matches, rows in original point order. -/
def sjoinRows (tiles : List Tile) : Nat → List Point → List Row
  | _, [] => []
  | i, p :: ps =>
    (if (tileMatches tiles p).isEmpty then [(i, p, none)]
     else (tileMatches tiles p).map (fun t => (i, p, some t.id))) ++
    sjoinRows tiles (i + 1) ps

/-- The joined table for a whole coordinate list (original indices from 0). -/
def sjoinLeft (coords : List Point) (tiles : List Tile) : List Row :=
  sjoinRows tiles 0 coords

/-- One-row-per-point reading of the join, equal to `sjoinRows` whenever every
point matches at most one tile; used to state the order-preservation facts. -/
def rowsOf (tiles : List Tile) : Nat → List Point → List Row
  | _, [] => []
  | i, p :: ps => (i, p, aId tiles p) :: rowsOf tiles (i + 1) ps

/-- The raster resource path `os.path.join(self.images_folder, f"{idx}.gpkg")`. -/
def rasterPath (folder : String) (idx : Nat) : String :=
  folder ++ "/" ++ toString idx ++ ".gpkg"

/-- GetElevations.value_from_src: one sampled value per coordinate, in order
(`[float(val[0]) for val in src.sample(coords)]`). -/
def value_from_src (coords : List Point) (src : Point → Int) : List Int :=
  coords.map src

/-- The file-system / raster environment the resolver runs against: whether
the raster file for a tile id is on disk (`os.path.exists`), and the value the
opened raster yields for a coordinate (`src.sample`). -/
structure Env where
  onDisk : Nat → Bool
  sample : Nat → Point → Int

/-- State threaded through the per-group loop of `_process_directory`: the
`elevations` list (`None` slots encoded as `none`), the missing-raster
warnings printed so far, and the sampler invocations made so far (tile id
whose raster was opened, coordinate batch passed to `src.sample`). -/
structure DirState where
  elevations : List (Option Int)
  missingWarnings : List String
  samplerCalls : List (Nat × List Point)
deriving DecidableEq

/-- The scatter loop
`for orig_idx, val in zip(subset["original_index"], vals): elevations[orig_idx] = val`,
one `List.set` per (index, value) pair. -/
def scatter : List (Option Int) → List (Nat × Int) → List (Option Int)
  | e, [] => e
  | e, (i, v) :: ps => scatter (e.set i (some v)) ps

/-- The rows of one `groupby("id")` group: the joined rows whose id column
equals `g`, in joined order. -/
def groupRows (joined : List Row) (g : Nat) : List Row :=
  joined.filter (fun r => decide (r.2.2 = some g))

/-- The body of `for idx, subset in joined.groupby("id")`, iterated over the
sorted group keys: when the raster file is absent, print a warning naming it
and continue; otherwise open the raster, sample the group's whole coordinate
batch once, and scatter the values back to the rows' original indices. -/
def processGroups (env : Env) (folder : String) (joined : List Row) :
    List Nat → DirState → DirState
  | [], st => st
  | g :: gs, st =>
    if env.onDisk g then
      processGroups env folder joined gs
        { st with
          elevations :=
            scatter st.elevations
              (((groupRows joined g).map (fun r => r.1)).zip
                (value_from_src ((groupRows joined g).map (fun r => r.2.1))
                  (env.sample g)))
          samplerCalls :=
            st.samplerCalls ++ [(g, (groupRows joined g).map (fun r => r.2.1))] }
    else
      processGroups env folder joined gs
        { st with missingWarnings := st.missingWarnings ++ [rasterPath folder g] }

/-- The distinct group keys of `joined.groupby("id")`, in ascending order
(pandas sorts group keys and drops the `NaN` key). -/
def sortIds (l : List Nat) : List Nat :=
  List.insertionSort (fun a b => a ≤ b) l.dedup

/-- Result of `_process_directory`: the returned `elevations` list, whether
the batch-level unmatched-points warning was printed, the missing-raster
warnings, and the sampler invocations. -/
structure DirResult where
  elevations : List (Option Int)
  unmatchedWarning : Bool
  missingWarnings : List String
  samplerCalls : List (Nat × List Point)
deriving DecidableEq

/-- GetElevations._process_directory.  `coordsCrs` and `tilesCrs` are the CRS
tags carried by the two input GeoDataFrames; this method never reads either
tag (both frames were normalised earlier by LoadGeo.to_crs). -/
def processDirectory (coordsCrs tilesCrs : Nat) (env : Env) (folder : String)
    (tiles : List Tile) (coords : List Point) : DirResult :=
  let joined := sjoinLeft coords tiles
  let st :=
    processGroups env folder joined
      (sortIds (joined.filterMap (fun r => r.2.2)))
      { elevations := List.replicate joined.length none
        missingWarnings := []
        samplerCalls := [] }
  { elevations := st.elevations
    unmatchedWarning := joined.any (fun r => r.2.2.isNone)
    missingWarnings := st.missingWarnings
    samplerCalls := st.samplerCalls }

/-- GetElevations._process_single_raster: raise FileNotFoundError when the
single raster path is absent, otherwise sample every coordinate against that
one raster in a single call, in input order. -/
def processSingleRaster (fileOnDisk : Bool) (sample : Point → Int)
    (path : String) (coords : List Point) :
    Except String (List Int × List (String × List Point)) :=
  if !fileOnDisk then
    Except.error ("Raster file not found: " ++ path)
  else
    Except.ok (value_from_src coords sample, [(path, coords)])

/-- Fixture: a point inside the unit tiles below. -/
def pA : Point := ⟨5, 5⟩

/-- Fixture: a point inside tile `tD` only. -/
def pB : Point := ⟨25, 5⟩

/-- Fixture: a point outside every fixture tile. -/
def pFar : Point := ⟨100, 100⟩

/-- Fixture: tile with id 1 covering x,y in 0..10. -/
def tA : Tile := ⟨1, 0, 0, 10, 10⟩

/-- Fixture: tile with id 2 covering the same extent as `tA` (overlap). -/
def tB : Tile := ⟨2, 0, 0, 10, 10⟩

/-- Fixture: tile with id 2 covering x in 20..30, disjoint from `tA`. -/
def tD : Tile := ⟨2, 20, 0, 30, 10⟩

/-- Fixture environment: every raster on disk, raster `g` yields `g`. -/
def envAll : Env := ⟨fun _ => true, fun g _ => (g : Int)⟩

/-- Fixture environment: raster 2 absent, every other raster on disk, raster
`g` yields `g`. -/
def envMiss2 : Env := ⟨fun g => g != 2, fun g _ => (g : Int)⟩

/-! ### Lemmas about the scatter loop -/

theorem scatter_length (ps : List (Nat × Int)) (e : List (Option Int)) :
    (scatter e ps).length = e.length := by
  induction ps generalizing e with
  | nil => rfl
  | cons pr ps ih =>
    cases pr with
    | mk i v => simp only [scatter, ih, List.length_set]

theorem scatter_append (l1 l2 : List (Nat × Int)) (e : List (Option Int)) :
    scatter e (l1 ++ l2) = scatter (scatter e l1) l2 := by
  induction l1 generalizing e with
  | nil => rfl
  | cons pr l1 ih =>
    cases pr with
    | mk i v =>
      show scatter (e.set i (some v)) (l1 ++ l2) =
        scatter (scatter (e.set i (some v)) l1) l2
      exact ih _

theorem scatter_getElem?_of_not_mem (ps : List (Nat × Int)) (e : List (Option Int))
    (j : Nat) (h : ∀ pr ∈ ps, pr.1 ≠ j) : (scatter e ps)[j]? = e[j]? := by
  induction ps generalizing e with
  | nil => rfl
  | cons pr ps ih =>
    cases pr with
    | mk i v =>
      have hij : i ≠ j := h (i, v) (List.mem_cons_self _ _)
      simp only [scatter]
      rw [ih _ (fun q hq => h q (List.mem_cons_of_mem _ hq))]
      exact List.getElem?_set_ne hij

theorem scatter_getElem?_last (ps : List (Nat × Int)) (e : List (Option Int))
    (j : Nat) (v : Int) (h : j < e.length) :
    (scatter e (ps ++ [(j, v)]))[j]? = some (some v) := by
  rw [scatter_append]
  have hlen : j < (scatter e ps).length := by rw [scatter_length]; exact h
  simp only [scatter]
  exact List.getElem?_set_eq_of_lt (some v) hlen

theorem scatter_getElem?_of_nodup (ps : List (Nat × Int)) (e : List (Option Int))
    (j : Nat) (v : Int) (hj : j < e.length) (hmem : (j, v) ∈ ps)
    (hnd : (ps.map Prod.fst).Nodup) : (scatter e ps)[j]? = some (some v) := by
  obtain ⟨l1, l2, rfl⟩ := List.append_of_mem hmem
  have hsplit : l1 ++ (j, v) :: l2 = (l1 ++ [(j, v)]) ++ l2 := by simp
  rw [hsplit, scatter_append]
  have h2 : (j :: l2.map Prod.fst).Nodup := by
    rw [List.map_append, List.map_cons] at hnd
    exact hnd.of_append_right
  have hjnot : j ∉ l2.map Prod.fst := (List.nodup_cons.mp h2).1
  rw [scatter_getElem?_of_not_mem l2 _ j ?hnm]
  case hnm =>
    intro pr hpr heq
    exact hjnot (heq ▸ List.mem_map_of_mem Prod.fst hpr)
  exact scatter_getElem?_last l1 e j v hj

/-! ### Lemmas about the spatial join -/

theorem sjoinRows_eq_rowsOf (tiles : List Tile) :
    ∀ (ps : List Point) (i : Nat),
      (∀ p ∈ ps, (tileMatches tiles p).length ≤ 1) →
      sjoinRows tiles i ps = rowsOf tiles i ps := by
  intro ps
  induction ps with
  | nil => intro i _; rfl
  | cons p ps ih =>
    intro i h
    have hp := h p (List.mem_cons_self _ _)
    have hps := fun q hq => h q (List.mem_cons_of_mem _ hq)
    simp only [sjoinRows, rowsOf]
    rw [ih (i + 1) hps]
    cases hm : tileMatches tiles p with
    | nil => simp [aId, hm]
    | cons t ts =>
      cases ts with
      | nil => simp [aId, hm]
      | cons t2 ts2 =>
        rw [hm] at hp
        simp only [List.length_cons] at hp
        omega

theorem rowsOf_length (tiles : List Tile) (i : Nat) (ps : List Point) :
    (rowsOf tiles i ps).length = ps.length := by
  induction ps generalizing i with
  | nil => rfl
  | cons p ps ih => simp only [rowsOf, List.length_cons, ih]

theorem rowsOf_map_fst (tiles : List Tile) (i : Nat) (ps : List Point) :
    (rowsOf tiles i ps).map (fun r => r.1) = List.range' i ps.length := by
  induction ps generalizing i with
  | nil => rfl
  | cons p ps ih =>
    simp only [rowsOf, List.map_cons, List.length_cons, List.range'_succ, ih]

theorem rowsOf_mem (tiles : List Tile) (i : Nat) (ps : List Point) (r : Row)
    (h : r ∈ rowsOf tiles i ps) :
    ∃ j, ∃ hj : j < ps.length,
      r = (i + j, ps.get ⟨j, hj⟩, aId tiles (ps.get ⟨j, hj⟩)) := by
  induction ps generalizing i with
  | nil => cases h
  | cons p ps ih =>
    rw [rowsOf] at h
    rcases List.mem_cons.mp h with h1 | h2
    · exact ⟨0, Nat.succ_pos _, h1⟩
    · obtain ⟨j, hj, rfl⟩ := ih (i + 1) h2
      refine ⟨j + 1, Nat.succ_lt_succ hj, ?_⟩
      have e : i + (j + 1) = (i + 1) + j := by omega
      rw [e]
      rfl

theorem rowsOf_mem_self (tiles : List Tile) (i : Nat) (ps : List Point)
    (j : Nat) (hj : j < ps.length) :
    (i + j, ps.get ⟨j, hj⟩, aId tiles (ps.get ⟨j, hj⟩)) ∈ rowsOf tiles i ps := by
  induction ps generalizing i j with
  | nil => exact absurd hj (Nat.not_lt_zero j)
  | cons p ps ih =>
    cases j with
    | zero => exact List.mem_cons_self _ _
    | succ j =>
      have h' := ih (i + 1) j (Nat.lt_of_succ_lt_succ hj)
      have e : (i + 1) + j = i + (j + 1) := by omega
      rw [e] at h'
      exact List.mem_cons_of_mem _ h'

/-! ### Lemmas about the per-group loop -/

theorem zip_map_sample (l : List Row) (f : Point → Int) :
    ((l.map (fun r => r.1)).zip (value_from_src (l.map (fun r => r.2.1)) f)) =
      l.map (fun r => (r.1, f r.2.1)) := by
  induction l with
  | nil => rfl
  | cons r l ih =>
    simp only [value_from_src, List.map_cons] at ih ⊢
    rw [List.zip_cons_cons, ih]

theorem processGroups_elev_length (env : Env) (folder : String) (joined : List Row) :
    ∀ (gs : List Nat) (st : DirState),
      (processGroups env folder joined gs st).elevations.length =
        st.elevations.length := by
  intro gs
  induction gs with
  | nil => intro st; rfl
  | cons g gs ih =>
    intro st
    simp only [processGroups]
    cases hd : env.onDisk g with
    | true => simp [ih, scatter_length]
    | false => simp [ih]

theorem processGroups_missing (env : Env) (folder : String) (joined : List Row) :
    ∀ (gs : List Nat) (st : DirState),
      (processGroups env folder joined gs st).missingWarnings =
        st.missingWarnings ++
          (gs.filter (fun g => !env.onDisk g)).map (rasterPath folder) := by
  intro gs
  induction gs with
  | nil => intro st; simp [processGroups]
  | cons g gs ih =>
    intro st
    simp only [processGroups]
    cases hd : env.onDisk g with
    | true => simp [ih, hd, List.filter_cons]
    | false => simp [ih, hd, List.filter_cons]

theorem processGroups_calls (env : Env) (folder : String) (joined : List Row) :
    ∀ (gs : List Nat) (st : DirState),
      (processGroups env folder joined gs st).samplerCalls =
        st.samplerCalls ++
          (gs.filter (fun g => env.onDisk g)).map
            (fun g => (g, (groupRows joined g).map (fun r => r.2.1))) := by
  intro gs
  induction gs with
  | nil => intro st; simp [processGroups]
  | cons g gs ih =>
    intro st
    simp only [processGroups]
    cases hd : env.onDisk g with
    | true => simp [ih, hd, List.filter_cons]
    | false => simp [ih, hd, List.filter_cons]

theorem groupRows_fst_nodup (tiles : List Tile) (coords : List Point) (g : Nat) :
    ((groupRows (rowsOf tiles 0 coords) g).map (fun r => r.1)).Nodup := by
  have hsub : List.Sublist (groupRows (rowsOf tiles 0 coords) g)
      (rowsOf tiles 0 coords) := List.filter_sublist _
  have hmap := List.Sublist.map (fun r : Row => r.1) hsub
  rw [rowsOf_map_fst] at hmap
  exact List.Nodup.sublist hmap (List.nodup_range' 0 coords.length 1 Nat.one_pos)

theorem mem_groupRows_rowsOf (tiles : List Tile) (coords : List Point) (g : Nat)
    (r : Row) (h : r ∈ groupRows (rowsOf tiles 0 coords) g) :
    ∃ j, ∃ hj : j < coords.length,
      r = (j, coords.get ⟨j, hj⟩, aId tiles (coords.get ⟨j, hj⟩)) ∧
      aId tiles (coords.get ⟨j, hj⟩) = some g := by
  obtain ⟨hrJ, hid⟩ := List.mem_filter.mp h
  obtain ⟨j, hj, rfl⟩ := rowsOf_mem tiles 0 coords r hrJ
  refine ⟨j, hj, by rw [Nat.zero_add], ?_⟩
  exact of_decide_eq_true hid

theorem row_mem_groupRows (tiles : List Tile) (coords : List Point) (g : Nat)
    (j : Nat) (hj : j < coords.length)
    (hid : aId tiles (coords.get ⟨j, hj⟩) = some g) :
    (j, coords.get ⟨j, hj⟩, aId tiles (coords.get ⟨j, hj⟩)) ∈
      groupRows (rowsOf tiles 0 coords) g := by
  apply List.mem_filter.mpr
  refine ⟨?_, decide_eq_true hid⟩
  have := rowsOf_mem_self tiles 0 coords j hj
  rwa [Nat.zero_add] at this

theorem scatter_group_untouched (env : Env) (tiles : List Tile)
    (coords : List Point) (g' : Nat) (e : List (Option Int)) (j : Nat)
    (hj : j < coords.length)
    (hne : aId tiles (coords.get ⟨j, hj⟩) ≠ some g') :
    (scatter e ((groupRows (rowsOf tiles 0 coords) g').map
        (fun r => (r.1, env.sample g' r.2.1))))[j]? = e[j]? := by
  apply scatter_getElem?_of_not_mem
  intro pr hpr
  obtain ⟨r, hr, rfl⟩ := List.mem_map.mp hpr
  obtain ⟨k, hk, rfl, hkg⟩ := mem_groupRows_rowsOf tiles coords g' r hr
  intro heq
  have hfin : (⟨k, hk⟩ : Fin coords.length) = ⟨j, hj⟩ := Fin.ext heq
  rw [hfin] at hkg
  exact hne hkg

/-- Pointwise description of the elevations list after the group loop, for a
join in which every point has at most one matching tile: position `j` holds
the sampled value of `j`-th point's tile once that tile's group (with its
raster on disk) has been processed, and is untouched otherwise. -/
theorem processGroups_getElem? (env : Env) (folder : String) (tiles : List Tile)
    (coords : List Point) :
    ∀ (gs : List Nat) (st : DirState), gs.Nodup →
      st.elevations.length = coords.length →
      ∀ (j : Nat) (hj : j < coords.length),
        (processGroups env folder (rowsOf tiles 0 coords) gs st).elevations[j]? =
          (aId tiles (coords.get ⟨j, hj⟩)).elim st.elevations[j]?
            (fun g =>
              if g ∈ gs ∧ env.onDisk g = true then
                some (some (env.sample g (coords.get ⟨j, hj⟩)))
              else st.elevations[j]?) := by
  intro gs
  induction gs with
  | nil =>
    intro st _ hlen j hj
    cases haId : aId tiles (coords.get ⟨j, hj⟩) with
    | none => simp [processGroups]
    | some g => simp [processGroups]
  | cons g' gs ih =>
    intro st hnd hlen j hj
    have hg' : g' ∉ gs := (List.nodup_cons.mp hnd).1
    have hnd' : gs.Nodup := (List.nodup_cons.mp hnd).2
    simp only [processGroups]
    by_cases hd : env.onDisk g' = true
    · rw [if_pos hd, zip_map_sample]
      refine (ih _ hnd' ?_ j hj).trans ?_
      · dsimp only
        rw [scatter_length]
        exact hlen
      · dsimp only
        cases haId : aId tiles (coords.get ⟨j, hj⟩) with
        | none =>
          simp only [Option.elim_none]
          exact scatter_group_untouched env tiles coords g' st.elevations j hj
            (by rw [haId]; exact fun h => Option.noConfusion h)
        | some g =>
          simp only [Option.elim_some]
          by_cases hgg : g = g'
          · subst hgg
            rw [if_neg (fun h => hg' h.1), if_pos ⟨List.mem_cons_self _ _, hd⟩]
            apply scatter_getElem?_of_nodup
            · rw [hlen]; exact hj
            · exact List.mem_map.mpr ⟨_, row_mem_groupRows tiles coords g j hj haId, rfl⟩
            · rw [List.map_map]
              exact groupRows_fst_nodup tiles coords g
          · by_cases hc : g ∈ gs ∧ env.onDisk g = true
            · rw [if_pos hc, if_pos ⟨List.mem_cons_of_mem _ hc.1, hc.2⟩]
            · rw [if_neg hc,
                if_neg (fun h => hc ⟨(List.mem_cons.mp h.1).resolve_left hgg, h.2⟩)]
              exact scatter_group_untouched env tiles coords g' st.elevations j hj
                (by rw [haId]; intro h; exact hgg (Option.some.inj h))
    · rw [if_neg hd]
      refine (ih { st with
          missingWarnings := st.missingWarnings ++ [rasterPath folder g'] }
          hnd' hlen j hj).trans ?_
      dsimp only
      cases haId : aId tiles (coords.get ⟨j, hj⟩) with
      | none => simp only [Option.elim_none]
      | some g =>
        simp only [Option.elim_some]
        by_cases hgg : g = g'
        · subst hgg
          rw [if_neg (fun h => hg' h.1), if_neg (fun h => hd h.2)]
        · by_cases hc : g ∈ gs ∧ env.onDisk g = true
          · rw [if_pos hc, if_pos ⟨List.mem_cons_of_mem _ hc.1, hc.2⟩]
          · rw [if_neg hc,
              if_neg (fun h => hc ⟨(List.mem_cons.mp h.1).resolve_left hgg, h.2⟩)]

/-! ### Lemmas about the whole directory pass -/

theorem sortIds_nodup (l : List Nat) : (sortIds l).Nodup :=
  (List.perm_insertionSort _ l.dedup).nodup_iff.mpr (List.nodup_dedup l)

theorem mem_sortIds (l : List Nat) (a : Nat) : a ∈ sortIds l ↔ a ∈ l := by
  rw [sortIds, List.mem_insertionSort, List.mem_dedup]

theorem aId_mem_joined_ids (tiles : List Tile) (coords : List Point) (j : Nat)
    (hj : j < coords.length) (g : Nat)
    (hg : aId tiles (coords.get ⟨j, hj⟩) = some g) :
    g ∈ (rowsOf tiles 0 coords).filterMap (fun r => r.2.2) := by
  apply List.mem_filterMap.mpr
  refine ⟨(j, coords.get ⟨j, hj⟩, aId tiles (coords.get ⟨j, hj⟩)), ?_, hg⟩
  have := rowsOf_mem_self tiles 0 coords j hj
  rwa [Nat.zero_add] at this

theorem aId_eq_some (tiles : List Tile) (p : Point) (g : Nat)
    (h : aId tiles p = some g) :
    ∃ t ∈ tiles, within p t = true ∧ t.id = g := by
  cases hm : tileMatches tiles p with
  | nil => rw [aId, hm] at h; cases h
  | cons t ts =>
    have hsome : aId tiles p = some t.id := by rw [aId, hm]; rfl
    rw [hsome] at h
    have htm : t ∈ tileMatches tiles p := by
      rw [hm]; exact List.mem_cons_self _ _
    obtain ⟨ht, hw⟩ := List.mem_filter.mp htm
    exact ⟨t, ht, hw, Option.some.inj h⟩

theorem aId_eq_none (tiles : List Tile) (p : Point)
    (h : tileMatches tiles p = []) : aId tiles p = none := by
  rw [aId, h]; rfl

theorem sjoinLeft_eq_rowsOf (tiles : List Tile) (coords : List Point)
    (h1 : ∀ p ∈ coords, (tileMatches tiles p).length ≤ 1) :
    sjoinLeft coords tiles = rowsOf tiles 0 coords :=
  sjoinRows_eq_rowsOf tiles coords 0 h1

theorem processDirectory_elevations_proj (c1 c2 : Nat) (env : Env)
    (folder : String) (tiles : List Tile) (coords : List Point) :
    (processDirectory c1 c2 env folder tiles coords).elevations =
      (processGroups env folder (sjoinLeft coords tiles)
        (sortIds ((sjoinLeft coords tiles).filterMap (fun r => r.2.2)))
        { elevations := List.replicate (sjoinLeft coords tiles).length none
          missingWarnings := []
          samplerCalls := [] }).elevations := rfl

theorem processDirectory_missing_proj (c1 c2 : Nat) (env : Env)
    (folder : String) (tiles : List Tile) (coords : List Point) :
    (processDirectory c1 c2 env folder tiles coords).missingWarnings =
      (processGroups env folder (sjoinLeft coords tiles)
        (sortIds ((sjoinLeft coords tiles).filterMap (fun r => r.2.2)))
        { elevations := List.replicate (sjoinLeft coords tiles).length none
          missingWarnings := []
          samplerCalls := [] }).missingWarnings := rfl

theorem processDirectory_calls_proj (c1 c2 : Nat) (env : Env)
    (folder : String) (tiles : List Tile) (coords : List Point) :
    (processDirectory c1 c2 env folder tiles coords).samplerCalls =
      (processGroups env folder (sjoinLeft coords tiles)
        (sortIds ((sjoinLeft coords tiles).filterMap (fun r => r.2.2)))
        { elevations := List.replicate (sjoinLeft coords tiles).length none
          missingWarnings := []
          samplerCalls := [] }).samplerCalls := rfl

theorem processDirectory_warning_proj (c1 c2 : Nat) (env : Env)
    (folder : String) (tiles : List Tile) (coords : List Point) :
    (processDirectory c1 c2 env folder tiles coords).unmatchedWarning =
      (sjoinLeft coords tiles).any (fun r => r.2.2.isNone) := rfl

theorem processDirectory_length (c1 c2 : Nat) (env : Env) (folder : String)
    (tiles : List Tile) (coords : List Point) :
    (processDirectory c1 c2 env folder tiles coords).elevations.length =
      (sjoinLeft coords tiles).length := by
  rw [processDirectory_elevations_proj, processGroups_elev_length]
  exact List.length_replicate _ _

theorem processDirectory_missing_eq (c1 c2 : Nat) (env : Env) (folder : String)
    (tiles : List Tile) (coords : List Point) :
    (processDirectory c1 c2 env folder tiles coords).missingWarnings =
      ((sortIds ((sjoinLeft coords tiles).filterMap (fun r => r.2.2))).filter
        (fun g => !env.onDisk g)).map (rasterPath folder) := by
  rw [processDirectory_missing_proj, processGroups_missing]
  exact List.nil_append _

theorem processDirectory_calls_eq (c1 c2 : Nat) (env : Env) (folder : String)
    (tiles : List Tile) (coords : List Point) :
    (processDirectory c1 c2 env folder tiles coords).samplerCalls =
      ((sortIds ((sjoinLeft coords tiles).filterMap (fun r => r.2.2))).filter
        (fun g => env.onDisk g)).map
        (fun g => (g, (groupRows (sjoinLeft coords tiles) g).map
          (fun r => r.2.1))) := by
  rw [processDirectory_calls_proj, processGroups_calls]
  exact List.nil_append _

theorem processDirectory_getElem? (c1 c2 : Nat) (env : Env) (folder : String)
    (tiles : List Tile) (coords : List Point)
    (h1 : ∀ p ∈ coords, (tileMatches tiles p).length ≤ 1)
    (j : Nat) (hj : j < coords.length) :
    (processDirectory c1 c2 env folder tiles coords).elevations[j]? =
      (aId tiles (coords.get ⟨j, hj⟩)).elim (some none)
        (fun g =>
          if env.onDisk g = true then
            some (some (env.sample g (coords.get ⟨j, hj⟩)))
          else some none) := by
  rw [processDirectory_elevations_proj, sjoinLeft_eq_rowsOf tiles coords h1]
  have hrepl :
      (List.replicate (rowsOf tiles 0 coords).length (none : Option Int)).length =
        coords.length := by
    rw [List.length_replicate, rowsOf_length]
  have hinit :
      (List.replicate (rowsOf tiles 0 coords).length (none : Option Int))[j]? =
        some none := by
    rw [List.getElem?_replicate, if_pos]
    rw [rowsOf_length]
    exact hj
  rw [processGroups_getElem? env folder tiles coords _ _ (sortIds_nodup _) hrepl j hj]
  cases haId : aId tiles (coords.get ⟨j, hj⟩) with
  | none =>
    simp only [Option.elim_none]
    exact hinit
  | some g =>
    simp only [Option.elim_some]
    have hmem : g ∈ sortIds ((rowsOf tiles 0 coords).filterMap (fun r => r.2.2)) :=
      (mem_sortIds _ g).mpr (aId_mem_joined_ids tiles coords j hj g haId)
    by_cases hdisk : env.onDisk g = true
    · rw [if_pos ⟨hmem, hdisk⟩, if_pos hdisk]
    · rw [if_neg (fun h => hdisk h.2), if_neg hdisk]
      exact hinit

theorem processDirectory_warning_iff (c1 c2 : Nat) (env : Env) (folder : String)
    (tiles : List Tile) (coords : List Point)
    (h1 : ∀ p ∈ coords, (tileMatches tiles p).length ≤ 1) :
    (processDirectory c1 c2 env folder tiles coords).unmatchedWarning = true ↔
      ∃ p ∈ coords, tileMatches tiles p = [] := by
  rw [processDirectory_warning_proj, sjoinLeft_eq_rowsOf tiles coords h1,
    List.any_eq_true]
  constructor
  · rintro ⟨r, hr, hnone⟩
    obtain ⟨j, hj, rfl⟩ := rowsOf_mem tiles 0 coords r hr
    refine ⟨coords.get ⟨j, hj⟩, List.get_mem coords j hj, ?_⟩
    cases hm : tileMatches tiles (coords.get ⟨j, hj⟩) with
    | nil => rfl
    | cons t ts =>
      have hsome : aId tiles (coords.get ⟨j, hj⟩) = some t.id := by
        rw [aId, hm]; rfl
      rw [show ((0 + j, coords.get ⟨j, hj⟩,
        aId tiles (coords.get ⟨j, hj⟩)) : Row).2.2 =
          aId tiles (coords.get ⟨j, hj⟩) from rfl, hsome] at hnone
      cases hnone
  · rintro ⟨p, hp, hm⟩
    obtain ⟨⟨j, hj⟩, hget⟩ := List.get_of_mem hp
    refine ⟨(j, coords.get ⟨j, hj⟩, aId tiles (coords.get ⟨j, hj⟩)), ?_, ?_⟩
    · have := rowsOf_mem_self tiles 0 coords j hj
      rwa [Nat.zero_add] at this
    · have : aId tiles (coords.get ⟨j, hj⟩) = none := by
        rw [hget]; exact aId_eq_none tiles p hm
      show (aId tiles (coords.get ⟨j, hj⟩)).isNone = true
      rw [this]; rfl

theorem sjoinRows_block_ge_one (tiles : List Tile) (i : Nat) (p : Point) :
    1 ≤ (if (tileMatches tiles p).isEmpty then [(i, p, (none : Option Nat))]
         else (tileMatches tiles p).map (fun t => (i, p, some t.id))).length := by
  cases hm : tileMatches tiles p with
  | nil => simp [hm]
  | cons t ts => simp [hm]

theorem sjoinRows_length_lower (tiles : List Tile) :
    ∀ (ps : List Point) (i : Nat), ps.length ≤ (sjoinRows tiles i ps).length := by
  intro ps
  induction ps with
  | nil => intro i; exact Nat.le_refl 0
  | cons p ps ih =>
    intro i
    simp only [sjoinRows, List.length_append, List.length_cons]
    have hb := sjoinRows_block_ge_one tiles i p
    have hi := ih (i + 1)
    omega

theorem sjoinRows_length_strict (tiles : List Tile) :
    ∀ (ps : List Point) (i : Nat) (p : Point), p ∈ ps →
      2 ≤ (tileMatches tiles p).length →
      ps.length < (sjoinRows tiles i ps).length := by
  intro ps
  induction ps with
  | nil => intro i p hp; cases hp
  | cons q ps ih =>
    intro i p hp hm
    simp only [sjoinRows, List.length_append, List.length_cons]
    rcases List.mem_cons.mp hp with h1 | h2
    · subst h1
      have hb : (if (tileMatches tiles p).isEmpty then
            [(i, p, (none : Option Nat))]
          else (tileMatches tiles p).map (fun t => (i, p, some t.id))).length =
          (tileMatches tiles p).length := by
        cases hmm : tileMatches tiles p with
        | nil => rw [hmm] at hm; exact absurd hm (by simp)
        | cons t ts => simp [hmm]
      have hi := sjoinRows_length_lower tiles ps (i + 1)
      omega
    · have hi := ih (i + 1) p h2 hm
      have hb := sjoinRows_block_ge_one tiles i q
      omega

theorem nodup_filter_eq (l : List Nat) (a : Nat) (hnd : l.Nodup) (ha : a ∈ l) :
    l.filter (fun x => decide (x = a)) = [a] := by
  induction l with
  | nil => cases ha
  | cons b l ih =>
    have hbnot : b ∉ l := (List.nodup_cons.mp hnd).1
    have hnd' := (List.nodup_cons.mp hnd).2
    rcases List.mem_cons.mp ha with h | h
    · subst h
      have hrest : l.filter (fun x => decide (x = a)) = [] := by
        apply List.filter_eq_nil_iff.mpr
        intro x hx
        simp only [decide_eq_true_eq]
        intro hxb
        exact hbnot (hxb ▸ hx)
      simp [List.filter_cons, hrest]
    · have hab : ¬(b = a) := fun hba => hbnot (hba ▸ h)
      have hdec : decide (b = a) = false := decide_eq_false hab
      simp [List.filter_cons, hdec, ih hnd' h]

/-! ### Claim theorems -/

/-- C8: for an empty input point sequence, `_process_directory` returns an
empty elevations list, makes zero sampler invocations, and emits zero
warnings (no unmatched-points warning, no missing-raster warning). -/
theorem C8_empty_input (c1 c2 : Nat) (env : Env) (folder : String)
    (tiles : List Tile) :
    processDirectory c1 c2 env folder tiles [] =
      { elevations := [], unmatchedWarning := false, missingWarnings := [],
        samplerCalls := [] } := rfl

/-- C9: in single-resource mode with the raster file present,
`_process_single_raster` samples all points in exactly one sampler call
against that resource, in original input order, with no tile matching; the
result length equals the input length and each point receives exactly the
value the sampler returns for it. -/
theorem C9_single_resource (sample : Point → Int) (path : String)
    (coords : List Point) :
    processSingleRaster true sample path coords =
      Except.ok (value_from_src coords sample, [(path, coords)]) ∧
    (value_from_src coords sample).length = coords.length ∧
    ∀ (j : Nat) (hj : j < coords.length),
      (value_from_src coords sample)[j]? = some (sample (coords.get ⟨j, hj⟩)) := by
  refine ⟨rfl, by simp [value_from_src], ?_⟩
  intro j hj
  rw [value_from_src, List.getElem?_map, List.getElem?_eq_getElem hj]
  rfl

/-- C9 witness: the single-resource theorem applied at a one-point input. -/
theorem C9_witness :
    (value_from_src [(⟨3, 4⟩ : Point)] (fun p => p.x))[0]? =
      some ((([(⟨3, 4⟩ : Point)] : List Point).get ⟨0, Nat.zero_lt_one⟩).x) :=
  (C9_single_resource (fun p => p.x) "r.gpkg" [⟨3, 4⟩]).2.2 0 Nat.zero_lt_one

/-- C10: in single-resource mode, when the raster path does not exist on disk,
`_process_single_raster` raises FileNotFoundError for every input point
sequence (including the empty one), naming the missing path. -/
theorem C10_single_missing_file (sample : Point → Int) (path : String)
    (coords : List Point) :
    processSingleRaster false sample path coords =
      Except.error ("Raster file not found: " ++ path) := rfl

/-- C6 counterexample: with the two input frames tagged 31983 and 4326 (a
projected frame versus degrees), `_process_directory` raises no error and
proceeds to containment matching: the point is matched to the tile and
sampled, and a normal result is returned. -/
theorem C6_counterexample :
    processDirectory 31983 4326 envAll "imgs" [tA] [pA] =
      { elevations := [some 1], unmatchedWarning := false,
        missingWarnings := [], samplerCalls := [(1, [pA])] } ∧
    31983 ≠ 4326 := by decide

/-- C6 amended: the resolver performs no reference-frame check before
matching: the frame tags carried by the two inputs never influence the
result, and no frame-mismatch error is ever raised; matching proceeds
regardless of the tags. -/
theorem C6_amended_no_frame_check (c1 c2 c1' c2' : Nat) (env : Env)
    (folder : String) (tiles : List Tile) (coords : List Point) :
    processDirectory c1 c2 env folder tiles coords =
      processDirectory c1' c2' env folder tiles coords := rfl

/-- C4 counterexample: a run in which original index 0 is written twice (the
point lies in both tiles, so both groups sample it — see the two sampler
calls) and index 1 of the returned list is never written, yet the assembler
raises nothing and returns a result sequence: the second write silently
overwrites the first and the never-written slot keeps the sentinel. -/
theorem C4_counterexample :
    processDirectory 4326 4326 envAll "imgs" [tA, tB] [pA] =
      { elevations := [some 2, none], unmatchedWarning := false,
        missingWarnings := [],
        samplerCalls := [(1, [pA]), (2, [pA])] } := by decide

/-- C4 amended: the assembler performs no integrity check and never raises:
it always returns a sequence of the initialised length; an index never
written retains the sentinel; and an index written more than once retains
the last value written. -/
theorem C4_amended_no_integrity_check (e : List (Option Int))
    (ps : List (Nat × Int)) (j : Nat) (v : Int) :
    (scatter e ps).length = e.length ∧
    ((∀ pr ∈ ps, pr.1 ≠ j) → (scatter e ps)[j]? = e[j]?) ∧
    (j < e.length → (scatter e (ps ++ [(j, v)]))[j]? = some (some v)) :=
  ⟨scatter_length ps e, fun h => scatter_getElem?_of_not_mem ps e j h,
    fun h => scatter_getElem?_last ps e j v h⟩

/-- C4 witness: the amended assembler theorem applied at a concrete state. -/
theorem C4_witness :
    (∀ pr ∈ ([(0, 3)] : List (Nat × Int)), pr.1 ≠ 1) ∧
    1 < ([none, none] : List (Option Int)).length ∧
    (scatter [none, none] [(0, 3)]).length =
      ([none, none] : List (Option Int)).length ∧
    (scatter [none, none] [(0, 3)])[1]? =
      ([none, none] : List (Option Int))[1]? ∧
    (scatter [none, none] ([(0, 3)] ++ [(1, 7)]))[1]? = some (some 7) := by
  refine ⟨by decide, by decide, ?_, ?_, ?_⟩
  · exact (C4_amended_no_integrity_check [none, none] [(0, 3)] 1 7).1
  · exact (C4_amended_no_integrity_check [none, none] [(0, 3)] 1 7).2.1 (by decide)
  · exact (C4_amended_no_integrity_check [none, none] [(0, 3)] 1 7).2.2 (by decide)

/-- C5 counterexample: a point lying within two overlapping tiles contributes
two join rows, so the result length is 2, not the input length 1. -/
theorem C5_counterexample :
    ¬ ((processDirectory 4326 4326 envAll "imgs" [tA, tB] [pA]).elevations.length =
      ([pA] : List Point).length) := by decide

/-- C5 amended: when a point lies within the extents of two or more
overlapping tiles, the join yields one row per matching tile (no single
deterministic match is selected), and the result list — whose length always
equals the join row count — is strictly longer than the input point list. -/
theorem C5_amended_overlap_rows (c1 c2 : Nat) (env : Env) (folder : String)
    (tiles : List Tile) (coords : List Point) (p : Point)
    (hp : p ∈ coords) (hm : 2 ≤ (tileMatches tiles p).length) :
    (processDirectory c1 c2 env folder tiles coords).elevations.length =
      (sjoinLeft coords tiles).length ∧
    coords.length < (sjoinLeft coords tiles).length :=
  ⟨processDirectory_length c1 c2 env folder tiles coords,
    sjoinRows_length_strict tiles coords 0 p hp hm⟩

/-- C5 witness: the amended overlap theorem applied at the two-tile overlap
fixture. -/
theorem C5_witness :
    pA ∈ ([pA] : List Point) ∧ 2 ≤ (tileMatches [tA, tB] pA).length ∧
    ([pA] : List Point).length < (sjoinLeft [pA] [tA, tB]).length := by
  refine ⟨by decide, by decide, ?_⟩
  exact (C5_amended_overlap_rows 4326 4326 envAll "imgs" [tA, tB] [pA] pA
    (by decide) (by decide)).2

/-- C1: in multi-tile mode, for every non-empty input in which each point lies
within exactly one tile and every matched tile's raster is on disk, the
result has one entry per input point, aligned to input order (position `j`
holds the value sampled from the tile containing point `j`), and no entry is
the sentinel. -/
theorem C1_full_coverage (c1 c2 : Nat) (env : Env) (folder : String)
    (tiles : List Tile) (coords : List Point)
    (hne : coords ≠ [])
    (hone : ∀ p ∈ coords, (tileMatches tiles p).length = 1)
    (hex : ∀ t ∈ tiles, ∀ p ∈ coords, within p t = true →
      env.onDisk t.id = true) :
    (processDirectory c1 c2 env folder tiles coords).elevations.length =
      coords.length ∧
    (∀ (j : Nat) (hj : j < coords.length), ∀ t ∈ tiles,
      within (coords.get ⟨j, hj⟩) t = true →
      (processDirectory c1 c2 env folder tiles coords).elevations[j]? =
        some (some (env.sample t.id (coords.get ⟨j, hj⟩)))) ∧
    (∀ x ∈ (processDirectory c1 c2 env folder tiles coords).elevations,
      x ≠ none) := by
  have h1 : ∀ p ∈ coords, (tileMatches tiles p).length ≤ 1 :=
    fun p hp => le_of_eq (hone p hp)
  have hlen : (processDirectory c1 c2 env folder tiles coords).elevations.length =
      coords.length := by
    rw [processDirectory_length, sjoinLeft_eq_rowsOf tiles coords h1, rowsOf_length]
  have hsingle : ∀ (j : Nat) (hj : j < coords.length),
      ∃ t, t ∈ tiles ∧ within (coords.get ⟨j, hj⟩) t = true := by
    intro j hj
    have hlen1 := hone _ (List.get_mem coords j hj)
    cases hm : tileMatches tiles (coords.get ⟨j, hj⟩) with
    | nil => rw [hm] at hlen1; exact absurd hlen1 (by simp)
    | cons t ts =>
      have htm : t ∈ tileMatches tiles (coords.get ⟨j, hj⟩) := by
        rw [hm]; exact List.mem_cons_self _ _
      obtain ⟨ht, hw⟩ := List.mem_filter.mp htm
      exact ⟨t, ht, hw⟩
  have hpoint : ∀ (j : Nat) (hj : j < coords.length), ∀ t ∈ tiles,
      within (coords.get ⟨j, hj⟩) t = true →
      (processDirectory c1 c2 env folder tiles coords).elevations[j]? =
        some (some (env.sample t.id (coords.get ⟨j, hj⟩))) := by
    intro j hj t ht hw
    have hmem_t : t ∈ tileMatches tiles (coords.get ⟨j, hj⟩) :=
      List.mem_filter.mpr ⟨ht, hw⟩
    have hlen1 := hone _ (List.get_mem coords j hj)
    have htm : tileMatches tiles (coords.get ⟨j, hj⟩) = [t] := by
      cases hm : tileMatches tiles (coords.get ⟨j, hj⟩) with
      | nil => rw [hm] at hmem_t; cases hmem_t
      | cons tP ts =>
        rw [hm] at hlen1 hmem_t
        have hts : ts = [] := by
          simp only [List.length_cons] at hlen1
          exact List.length_eq_zero.mp (by omega)
        subst hts
        rcases List.mem_cons.mp hmem_t with h | h
        · rw [h]
        · cases h
    have haId : aId tiles (coords.get ⟨j, hj⟩) = some t.id := by
      rw [aId, htm]; rfl
    rw [processDirectory_getElem? c1 c2 env folder tiles coords h1 j hj, haId]
    simp only [Option.elim_some]
    rw [if_pos (hex t ht _ (List.get_mem coords j hj) hw)]
  refine ⟨hlen, hpoint, ?_⟩
  intro x hx
  obtain ⟨n, hn⟩ := List.get_of_mem hx
  have hjc : n.1 < coords.length := by rw [← hlen]; exact n.2
  obtain ⟨t, ht, hw⟩ := hsingle n.1 hjc
  have hval := hpoint n.1 hjc t ht hw
  have hx' : (processDirectory c1 c2 env folder tiles coords).elevations[n.1]? =
      some x := by
    rw [List.getElem?_eq_getElem n.2]
    exact congrArg some hn
  rw [hval] at hx'
  have := Option.some.inj hx'
  intro hxn
  rw [hxn] at this
  exact Option.noConfusion this

/-- C1 witness: the full-coverage theorem applied at a two-point, two-tile
input with every hypothesis discharged concretely. -/
theorem C1_witness :
    (([pA, pB] : List Point) ≠ [] ∧
      (∀ p ∈ ([pA, pB] : List Point), (tileMatches [tA, tD] p).length = 1) ∧
      (∀ t ∈ ([tA, tD] : List Tile), ∀ p ∈ ([pA, pB] : List Point),
        within p t = true → envAll.onDisk t.id = true)) ∧
    (processDirectory 4326 4326 envAll "imgs" [tA, tD] [pA, pB]).elevations.length =
      ([pA, pB] : List Point).length := by
  refine ⟨⟨by decide, by decide, by decide⟩, ?_⟩
  exact (C1_full_coverage 4326 4326 envAll "imgs" [tA, tD] [pA, pB] (by decide)
    (by decide) (by decide)).1

/-- C2: in multi-tile mode (each point matching at most one tile), every
point inside no tile receives the sentinel, every coordinate passed to any
sampler call lies within some tile (unmatched points are never sampled),
and the aggregate unmatched warning is emitted exactly when at least one
unmatched point exists. -/
theorem C2_unmatched_points (c1 c2 : Nat) (env : Env) (folder : String)
    (tiles : List Tile) (coords : List Point)
    (h1 : ∀ p ∈ coords, (tileMatches tiles p).length ≤ 1) :
    (∀ (j : Nat) (hj : j < coords.length),
        tileMatches tiles (coords.get ⟨j, hj⟩) = [] →
        (processDirectory c1 c2 env folder tiles coords).elevations[j]? =
          some none) ∧
    (∀ c ∈ (processDirectory c1 c2 env folder tiles coords).samplerCalls,
        ∀ q ∈ c.2, ∃ t ∈ tiles, within q t = true) ∧
    ((processDirectory c1 c2 env folder tiles coords).unmatchedWarning = true ↔
      ∃ p ∈ coords, tileMatches tiles p = []) := by
  refine ⟨?_, ?_, processDirectory_warning_iff c1 c2 env folder tiles coords h1⟩
  · intro j hj hm
    rw [processDirectory_getElem? c1 c2 env folder tiles coords h1 j hj,
      aId_eq_none tiles _ hm]
    rfl
  · intro c hc q hq
    rw [processDirectory_calls_eq] at hc
    obtain ⟨g, hgmem, rfl⟩ := List.mem_map.mp hc
    obtain ⟨r, hr, rfl⟩ := List.mem_map.mp hq
    rw [sjoinLeft_eq_rowsOf tiles coords h1] at hr
    obtain ⟨j, hj, rfl, hid⟩ := mem_groupRows_rowsOf tiles coords g r hr
    obtain ⟨t, ht, hw, _⟩ := aId_eq_some tiles _ g hid
    exact ⟨t, ht, hw⟩

/-- C2 witness: the unmatched-points theorem applied at an input with one
matched and one unmatched point. -/
theorem C2_witness :
    (∀ p ∈ ([pA, pFar] : List Point), (tileMatches [tA] p).length ≤ 1) ∧
    (processDirectory 4326 4326 envAll "imgs" [tA] [pA, pFar]).unmatchedWarning =
      true ∧
    (processDirectory 4326 4326 envAll "imgs" [tA] [pA, pFar]).elevations[1]? =
      some none := by
  refine ⟨by decide, ?_, ?_⟩
  · exact (C2_unmatched_points 4326 4326 envAll "imgs" [tA] [pA, pFar]
      (by decide)).2.2.mpr ⟨pFar, by decide, by decide⟩
  · exact (C2_unmatched_points 4326 4326 envAll "imgs" [tA] [pA, pFar]
      (by decide)).1 1 (by decide) (by decide)

/-- C3: in multi-tile mode, when the raster for matched tile id `b` is not on
disk, every point assigned to `b` receives the sentinel, a warning naming the
missing raster path is emitted, the run returns normally, and every point not
assigned to `b` receives exactly the value it receives in a run whose
environment has the raster for `b` present (all else equal). -/
theorem C3_missing_resource (c1 c2 : Nat) (env envP : Env) (folder : String)
    (tiles : List Tile) (coords : List Point) (b : Nat)
    (h1 : ∀ p ∈ coords, (tileMatches tiles p).length ≤ 1)
    (hb : env.onDisk b = false)
    (hbP : envP.onDisk b = true)
    (hagree : ∀ g, g ≠ b → envP.onDisk g = env.onDisk g)
    (hsample : envP.sample = env.sample)
    (hmatched : ∃ p ∈ coords, aId tiles p = some b) :
    (∀ (j : Nat) (hj : j < coords.length),
        aId tiles (coords.get ⟨j, hj⟩) = some b →
        (processDirectory c1 c2 env folder tiles coords).elevations[j]? =
          some none) ∧
    rasterPath folder b ∈
      (processDirectory c1 c2 env folder tiles coords).missingWarnings ∧
    (∀ (j : Nat) (hj : j < coords.length),
        aId tiles (coords.get ⟨j, hj⟩) ≠ some b →
        (processDirectory c1 c2 env folder tiles coords).elevations[j]? =
          (processDirectory c1 c2 envP folder tiles coords).elevations[j]?) := by
  have hcond : ¬(env.onDisk b = true) := by
    rw [hb]; exact Bool.false_ne_true
  refine ⟨?_, ?_, ?_⟩
  · intro j hj hid
    rw [processDirectory_getElem? c1 c2 env folder tiles coords h1 j hj, hid]
    simp only [Option.elim_some]
    rw [if_neg hcond]
  · rw [processDirectory_missing_eq, sjoinLeft_eq_rowsOf tiles coords h1]
    apply List.mem_map.mpr
    refine ⟨b, List.mem_filter.mpr ⟨?_, by rw [hb]; rfl⟩, rfl⟩
    obtain ⟨p, hp, hpb⟩ := hmatched
    obtain ⟨⟨j0, hj0⟩, hget⟩ := List.get_of_mem hp
    have haId0 : aId tiles (coords.get ⟨j0, hj0⟩) = some b := by
      rw [hget]; exact hpb
    exact (mem_sortIds _ _).mpr (aId_mem_joined_ids tiles coords j0 hj0 b haId0)
  · intro j hj hne
    rw [processDirectory_getElem? c1 c2 env folder tiles coords h1 j hj,
      processDirectory_getElem? c1 c2 envP folder tiles coords h1 j hj]
    cases haId : aId tiles (coords.get ⟨j, hj⟩) with
    | none => rfl
    | some g =>
      have hgb : g ≠ b := fun h => hne (by rw [haId, h])
      simp only [Option.elim_some]
      rw [hagree g hgb, hsample]

/-- C3 witness: the missing-resource theorem applied at a two-tile input with
the raster for tile id 2 deleted. -/
theorem C3_witness :
    (envMiss2.onDisk 2 = false ∧ envAll.onDisk 2 = true ∧
      (∃ p ∈ ([pA, pB] : List Point), aId [tA, tD] p = some 2)) ∧
    rasterPath "imgs" 2 ∈
      (processDirectory 4326 4326 envMiss2 "imgs" [tA, tD] [pA, pB]).missingWarnings := by
  have hagree : ∀ g, g ≠ 2 → envAll.onDisk g = envMiss2.onDisk g := by
    intro g hg
    simp [envAll, envMiss2, hg]
  refine ⟨⟨by decide, by decide, ⟨pB, by decide, by decide⟩⟩, ?_⟩
  exact (C3_missing_resource 4326 4326 envMiss2 envAll "imgs" [tA, tD] [pA, pB] 2
    (by decide) (by decide) (by decide) hagree rfl
    ⟨pB, by decide, by decide⟩).2.1

/-- C7: in multi-tile mode (each point matching at most one tile), for a
matched tile id `g` whose raster is on disk: the sampler is invoked exactly
once for that group, the invocation passes the group's coordinates in group
order, and each point of the group receives the value sampled for its
coordinate. -/
theorem C7_one_call_per_group (c1 c2 : Nat) (env : Env) (folder : String)
    (tiles : List Tile) (coords : List Point) (g : Nat)
    (h1 : ∀ p ∈ coords, (tileMatches tiles p).length ≤ 1)
    (hgrp : ∃ p ∈ coords, aId tiles p = some g)
    (hex : env.onDisk g = true) :
    ((processDirectory c1 c2 env folder tiles coords).samplerCalls.filter
        (fun c => decide (c.1 = g))).length = 1 ∧
    (g, (groupRows (sjoinLeft coords tiles) g).map (fun r => r.2.1)) ∈
      (processDirectory c1 c2 env folder tiles coords).samplerCalls ∧
    (∀ (j : Nat) (hj : j < coords.length),
        aId tiles (coords.get ⟨j, hj⟩) = some g →
        (processDirectory c1 c2 env folder tiles coords).elevations[j]? =
          some (some (env.sample g (coords.get ⟨j, hj⟩)))) := by
  have hmemS : g ∈ sortIds ((sjoinLeft coords tiles).filterMap (fun r => r.2.2)) := by
    obtain ⟨p, hp, hpg⟩ := hgrp
    obtain ⟨⟨j0, hj0⟩, hget⟩ := List.get_of_mem hp
    have haId0 : aId tiles (coords.get ⟨j0, hj0⟩) = some g := by
      rw [hget]; exact hpg
    rw [sjoinLeft_eq_rowsOf tiles coords h1]
    exact (mem_sortIds _ _).mpr (aId_mem_joined_ids tiles coords j0 hj0 g haId0)
  refine ⟨?_, ?_, ?_⟩
  · rw [processDirectory_calls_eq, List.filter_map, List.length_map]
    have hfil : ((sortIds ((sjoinLeft coords tiles).filterMap
          (fun r => r.2.2))).filter (fun gP => env.onDisk gP)).filter
          (fun x => decide (x = g)) = [g] := by
      apply nodup_filter_eq
      · exact (sortIds_nodup _).filter _
      · exact List.mem_filter.mpr ⟨hmemS, hex⟩
    exact hfil ▸ rfl
  · rw [processDirectory_calls_eq]
    exact List.mem_map.mpr ⟨g, List.mem_filter.mpr ⟨hmemS, hex⟩, rfl⟩
  · intro j hj hid
    rw [processDirectory_getElem? c1 c2 env folder tiles coords h1 j hj, hid]
    simp only [Option.elim_some]
    rw [if_pos hex]

/-- C7 witness: the one-call-per-group theorem applied at a one-point,
one-tile input. -/
theorem C7_witness :
    ((∃ p ∈ ([pA] : List Point), aId [tA] p = some 1) ∧
      envAll.onDisk 1 = true) ∧
    ((processDirectory 4326 4326 envAll "imgs" [tA] [pA]).samplerCalls.filter
        (fun c => decide (c.1 = 1))).length = 1 := by
  refine ⟨⟨⟨pA, by decide, by decide⟩, by decide⟩, ?_⟩
  exact (C7_one_call_per_group 4326 4326 envAll "imgs" [tA] [pA] 1 (by decide)
    ⟨pA, by decide, by decide⟩ (by decide)).1

end Srtm
